import Mathlib

/-!
Shallow embedding of `src/action_state.rs` from the `leafwing-input-manager`
repository: the `Timing` / `VirtualButtonState` per-action state machine, the
`ActionState` container (a hash map with exactly one entry per action variant),
and the `ButtonThresholds` analog-to-digital conversion logic.

Modelling conventions:
- `Instant` and `Duration` are modelled as `Nat` (an abstract monotone clock).
  The Rust `Instant` subtraction `current_instant - instant` traps when the
  result would be negative, so `tick` is modelled as an `Option`-returning
  function that yields `none` exactly on that trapping branch.
- `HashMap<A, VirtualButtonState>` is modelled as an association list with the
  `HashMap::insert` semantics: replace the value in place when the key is
  present (keeping the stored key), append otherwise. `HashSet<A>` is a `List`.
- The `Actionlike::iter()` exhaustive enumeration of the action type `A` is an
  explicit list parameter `enum : List A`.
- `ButtonThresholds` stores `f32` values, but the code only compares and copies
  them (no arithmetic), so they are modelled exactly as rationals.
- The `assert!` range checks and the `expect` in `set_state` are panics, so
  those functions return `Option`, with `none` on the panicking branch.
-/

namespace LeafwingInputManager

abbrev Instant := Nat
abbrev Duration := Nat

/-- The `Timing` struct: start instant plus current/previous elapsed durations. -/
structure Timing where
  instant_started : Option Instant
  current_duration : Duration
  previous_duration : Duration
deriving DecidableEq, Repr

/-- The `Default` impl for `Timing`: all fields zero / absent. -/
def Timing.default : Timing :=
  { instant_started := none, current_duration := 0, previous_duration := 0 }

/-- The `VirtualButtonState` enum: pressed or released, each carrying a `Timing`. -/
inductive VirtualButtonState where
  | Pressed : Timing → VirtualButtonState
  | Released : Timing → VirtualButtonState
deriving DecidableEq, Repr

namespace VirtualButtonState

/-- `VirtualButtonState::pressed`: is the button currently pressed? -/
def pressed : VirtualButtonState → Bool
  | Pressed _ => true
  | Released _ => false

/-- `VirtualButtonState::released`: is the button currently released? -/
def released : VirtualButtonState → Bool
  | Pressed _ => false
  | Released _ => true

/-- `VirtualButtonState::just_pressed`: pressed and not yet ticked since the transition. -/
def just_pressed : VirtualButtonState → Bool
  | Pressed timing => timing.instant_started.isNone
  | Released _ => false

/-- `VirtualButtonState::just_released`: released and not yet ticked since the transition. -/
def just_released : VirtualButtonState → Bool
  | Pressed _ => false
  | Released timing => timing.instant_started.isNone

/-- `VirtualButtonState::instant_started`: projection, identical across variants. -/
def instant_started : VirtualButtonState → Option Instant
  | Pressed timing => timing.instant_started
  | Released timing => timing.instant_started

/-- `VirtualButtonState::current_duration`: projection, identical across variants. -/
def current_duration : VirtualButtonState → Duration
  | Pressed timing => timing.current_duration
  | Released timing => timing.current_duration

/-- `VirtualButtonState::previous_duration`: projection, identical across variants. -/
def previous_duration : VirtualButtonState → Duration
  | Pressed timing => timing.previous_duration
  | Released timing => timing.previous_duration

/-- The `Default` impl for `VirtualButtonState`: `Released(Timing::default())`. -/
def default : VirtualButtonState := Released Timing.default

/-- The per-entry body of `ActionState::tick`: both variants are transformed
identically. When `instant_started` is absent it is stamped with
`current_instant` and `current_duration` is zeroed; otherwise
`current_duration` is recomputed as `current_instant - instant`, where the
Rust `Instant` subtraction traps (modelled as `none`) if `instant` is later
than `current_instant`. -/
def tick (state : VirtualButtonState) (current_instant : Instant) :
    Option VirtualButtonState :=
  match state with
  | Pressed timing =>
    match timing.instant_started with
    | some instant =>
      if instant ≤ current_instant then
        some (Pressed { timing with current_duration := current_instant - instant })
      else
        none
    | none =>
      some (Pressed { timing with instant_started := some current_instant,
                                  current_duration := 0 })
  | Released timing =>
    match timing.instant_started with
    | some instant =>
      if instant ≤ current_instant then
        some (Released { timing with current_duration := current_instant - instant })
      else
        none
    | none =>
      some (Released { timing with instant_started := some current_instant,
                                   current_duration := 0 })

end VirtualButtonState

section ActionStateModel

variable {A : Type} [DecidableEq A] {V : Type}

/-- `HashMap::get` on the association-list model: first entry with the key. -/
def mapGet : List (A × V) → A → Option V
  | [], _ => none
  | (k, v) :: rest, a => if k = a then some v else mapGet rest a

/-- `HashMap::insert` on the association-list model: replace the value in place
when the key is present (the stored key is kept, as in `HashMap::insert`),
append a new entry otherwise. -/
def mapInsert : List (A × V) → A → V → List (A × V)
  | [], a, v => [(a, v)]
  | (k, w) :: rest, a, v =>
    if k = a then (k, v) :: rest else (k, w) :: mapInsert rest a v

end ActionStateModel

/-- The `ActionState<A>` struct: a map from actions to virtual button states. -/
structure ActionState (A : Type) where
  map : List (A × VirtualButtonState)
deriving DecidableEq

namespace ActionState

variable {A : Type} [DecidableEq A]

/-- `ActionState::state`: clone of the stored state, or the default
(released, untimed) as a defensive fallback when the action is absent. -/
def state (s : ActionState A) (action : A) : VirtualButtonState :=
  (mapGet s.map action).getD VirtualButtonState.default

/-- `ActionState::set_state`: overwrite the stored state; the Rust code calls
`expect` (panics, modelled as `none`) when the action is not in the map. -/
def set_state (s : ActionState A) (action : A) (new : VirtualButtonState) :
    Option (ActionState A) :=
  match mapGet s.map action with
  | some _ => some ⟨mapInsert s.map action new⟩
  | none => none

/-- `ActionState::press`: when the action is currently released, insert a
`Pressed` state with no start instant, zero current duration, and the old
current duration carried into `previous_duration`; otherwise do nothing. -/
def press (s : ActionState A) (action : A) : ActionState A :=
  match s.state action with
  | VirtualButtonState.Released timing =>
    ⟨mapInsert s.map action
      (VirtualButtonState.Pressed
        { instant_started := none
          current_duration := 0
          previous_duration := timing.current_duration })⟩
  | VirtualButtonState.Pressed _ => s

/-- `ActionState::release`: symmetric to `press`. -/
def release (s : ActionState A) (action : A) : ActionState A :=
  match s.state action with
  | VirtualButtonState.Pressed timing =>
    ⟨mapInsert s.map action
      (VirtualButtonState.Released
        { instant_started := none
          current_duration := 0
          previous_duration := timing.current_duration })⟩
  | VirtualButtonState.Released _ => s

/-- `ActionState::release_all`: release every action in enumeration order. -/
def release_all (enum : List A) (s : ActionState A) : ActionState A :=
  enum.foldl (fun acc action => acc.release action) s

/-- The body of the `ActionState::update` loop for one action: compare the
current variant with membership in `pressed_set` and call `release` / `press`
on disagreement. -/
def updateAction (pressed_set : List A) (acc : ActionState A) (action : A) :
    ActionState A :=
  match acc.state action with
  | VirtualButtonState.Pressed _ =>
    if action ∈ pressed_set then acc else acc.release action
  | VirtualButtonState.Released _ =>
    if action ∈ pressed_set then acc.press action else acc

/-- `ActionState::update`: run the loop body over every action in the
exhaustive enumeration. -/
def update (enum : List A) (s : ActionState A) (pressed_set : List A) :
    ActionState A :=
  enum.foldl (updateAction pressed_set) s

/-- `ActionState::tick` applied entrywise to the stored map; `none` when any
entry's duration subtraction would trap. -/
def tickEntries :
    List (A × VirtualButtonState) → Instant → Option (List (A × VirtualButtonState))
  | [], _ => some []
  | (k, v) :: rest, current_instant =>
    match v.tick current_instant, tickEntries rest current_instant with
    | some v2, some rest2 => some ((k, v2) :: rest2)
    | _, _ => none

/-- `ActionState::tick`: advance the time for all stored virtual buttons. -/
def tick (s : ActionState A) (current_instant : Instant) : Option (ActionState A) :=
  (tickEntries s.map current_instant).map ActionState.mk

/-- `ActionState::pressed`. -/
def pressed (s : ActionState A) (action : A) : Bool :=
  (s.state action).pressed

/-- `ActionState::just_pressed`. -/
def just_pressed (s : ActionState A) (action : A) : Bool :=
  (s.state action).just_pressed

/-- `ActionState::released`. -/
def released (s : ActionState A) (action : A) : Bool :=
  (s.state action).released

/-- `ActionState::just_released`. -/
def just_released (s : ActionState A) (action : A) : Bool :=
  (s.state action).just_released

/-- `ActionState::instant_started`. -/
def instant_started (s : ActionState A) (action : A) : Option Instant :=
  (s.state action).instant_started

/-- `ActionState::current_duration`. -/
def current_duration (s : ActionState A) (action : A) : Duration :=
  (s.state action).current_duration

/-- `ActionState::previous_duration`. -/
def previous_duration (s : ActionState A) (action : A) : Duration :=
  (s.state action).previous_duration

/-- `ActionState::get_pressed`. -/
def get_pressed (enum : List A) (s : ActionState A) : List A :=
  enum.filter (fun a => s.pressed a)

/-- `ActionState::get_just_pressed`. -/
def get_just_pressed (enum : List A) (s : ActionState A) : List A :=
  enum.filter (fun a => s.just_pressed a)

/-- `ActionState::get_released`. -/
def get_released (enum : List A) (s : ActionState A) : List A :=
  enum.filter (fun a => s.released a)

/-- `ActionState::get_just_released`. -/
def get_just_released (enum : List A) (s : ActionState A) : List A :=
  enum.filter (fun a => s.just_released a)

/-- `ActionState::default_map`: the exhaustive per-action map seeded with the
value type's default, built by inserting along the enumeration. -/
def default_map (vdefault : V) (enum : List A) : List (A × V) :=
  enum.foldl (fun m action => mapInsert m action vdefault) []

/-- The `Default` impl for `ActionState`: one default (released, untimed)
virtual button state per action variant. -/
def init (enum : List A) : ActionState A :=
  ⟨default_map VirtualButtonState.default enum⟩

end ActionState

/-- The `ButtonThresholds` struct. The Rust fields are `f32`, but the code only
compares and copies them, so rationals model them exactly. -/
structure ButtonThresholds where
  pressed : Rat
  released : Rat
deriving DecidableEq, Repr

/-- The `Default` impl for `ButtonThresholds`: both thresholds 0.5. -/
def ButtonThresholds.default : ButtonThresholds :=
  { pressed := 1/2, released := 1/2 }

/-- The `Result<(), ThresholdError>` returned by the threshold setters, with
`ThresholdError` carrying the value the threshold was clamped to. -/
inductive ThresholdResult where
  | ok : ThresholdResult
  | thresholdError : Rat → ThresholdResult
deriving DecidableEq, Repr

/-- `ButtonThresholds::set_pressed`. The leading `assert!`s (panic when the
value is outside `[0, 1]`) are modelled by the outer `Option`. On success
`pressed := value`; otherwise `pressed` is clamped to `released` and the
error carries that clamp value. -/
def ButtonThresholds.set_pressed (t : ButtonThresholds) (value : Rat) :
    Option (ButtonThresholds × ThresholdResult) :=
  if 0 ≤ value ∧ value ≤ 1 then
    if t.released ≤ value then
      some ({ t with pressed := value }, ThresholdResult.ok)
    else
      some ({ t with pressed := t.released }, ThresholdResult.thresholdError t.released)
  else
    none

/-- `ButtonThresholds::set_released`, transcribed exactly as written in the
source: the success branch (`value <= pressed`) assigns `self.pressed = value`,
and the rejection branch assigns `self.released = self.pressed` and returns
`ThresholdError(self.pressed)`. -/
def ButtonThresholds.set_released (t : ButtonThresholds) (value : Rat) :
    Option (ButtonThresholds × ThresholdResult) :=
  if 0 ≤ value ∧ value ≤ 1 then
    if value ≤ t.pressed then
      some ({ t with pressed := value }, ThresholdResult.ok)
    else
      some ({ t with released := t.pressed }, ThresholdResult.thresholdError t.pressed)
  else
    none

/-! Section: Association-list map lemmas -/

section MapLemmas

variable {A : Type} [DecidableEq A] {V : Type}

@[simp]
theorem mapGet_mapInsert_self (m : List (A × V)) (a : A) (v : V) :
    mapGet (mapInsert m a v) a = some v := by
  induction m with
  | nil => simp [mapInsert, mapGet]
  | cons p rest ih =>
    obtain ⟨k, w⟩ := p
    by_cases h : k = a <;> simp [mapInsert, mapGet, h, ih]

theorem mapGet_mapInsert_ne (m : List (A × V)) {a b : A} (v : V) (h : b ≠ a) :
    mapGet (mapInsert m b v) a = mapGet m a := by
  induction m with
  | nil => simp [mapInsert, mapGet, h]
  | cons p rest ih =>
    obtain ⟨k, w⟩ := p
    by_cases hk : k = b <;> simp [mapInsert, mapGet, hk, ih, h]

theorem mapGet_eq_none_iff (m : List (A × V)) (a : A) :
    mapGet m a = none ↔ a ∉ m.map Prod.fst := by
  induction m with
  | nil => simp [mapGet]
  | cons p rest ih =>
    obtain ⟨k, w⟩ := p
    by_cases hk : k = a
    · subst hk
      simp [mapGet]
    · simp only [mapGet, if_neg hk, ih, List.map_cons, List.mem_cons]
      have hak : ¬ a = k := fun hak => hk hak.symm
      tauto

theorem mem_keys_of_mapGet (m : List (A × V)) {a : A} {v : V}
    (h : mapGet m a = some v) : a ∈ m.map Prod.fst := by
  by_contra hmem
  rw [(mapGet_eq_none_iff m a).mpr hmem] at h
  exact Option.noConfusion h

theorem keys_mapInsert_mem (m : List (A × V)) {a : A} (v : V)
    (h : a ∈ m.map Prod.fst) :
    (mapInsert m a v).map Prod.fst = m.map Prod.fst := by
  induction m with
  | nil => simp at h
  | cons p rest ih =>
    obtain ⟨k, w⟩ := p
    by_cases hk : k = a
    · simp [mapInsert, hk]
    · have h2 : a ∈ rest.map Prod.fst := by
        rw [List.map_cons] at h
        rcases List.mem_cons.mp h with h1 | h1
        · exact absurd h1.symm hk
        · exact h1
      simp [mapInsert, hk, ih h2]

theorem keys_mapInsert_not_mem (m : List (A × V)) {a : A} (v : V)
    (h : a ∉ m.map Prod.fst) :
    (mapInsert m a v).map Prod.fst = m.map Prod.fst ++ [a] := by
  induction m with
  | nil => simp [mapInsert]
  | cons p rest ih =>
    obtain ⟨k, w⟩ := p
    have hk : k ≠ a := by
      intro hka
      exact h (by simp [hka])
    have h2 : a ∉ rest.map Prod.fst := by
      intro hm
      exact h (by simp [hm])
    simp [mapInsert, hk, ih h2]

theorem mapGet_foldl_mapInsert (d : V) :
    ∀ (l : List A) (m : List (A × V)) (a : A),
    mapGet (l.foldl (fun acc x => mapInsert acc x d) m) a =
      if a ∈ l then some d else mapGet m a := by
  intro l
  induction l with
  | nil => intro m a; simp
  | cons b l ih =>
    intro m a
    simp only [List.foldl_cons, ih]
    by_cases hb : a ∈ l
    · simp [hb]
    · by_cases hab : b = a
      · subst hab
        simp [hb]
      · simp [hb, Ne.symm hab, mapGet_mapInsert_ne _ _ hab]

theorem keys_foldl_mapInsert (d : V) :
    ∀ (l : List A) (m : List (A × V)), l.Nodup → (∀ a ∈ l, a ∉ m.map Prod.fst) →
    (l.foldl (fun acc x => mapInsert acc x d) m).map Prod.fst = m.map Prod.fst ++ l := by
  intro l
  induction l with
  | nil => intro m _ _; simp
  | cons b l ih =>
    intro m hd hm
    simp only [List.foldl_cons]
    have hb : b ∉ m.map Prod.fst := hm b (by simp)
    have hd2 : l.Nodup := hd.of_cons
    have hbl : b ∉ l := (List.nodup_cons.mp hd).1
    have hkeys := keys_mapInsert_not_mem m d hb
    have h2 : ∀ a ∈ l, a ∉ (mapInsert m b d).map Prod.fst := by
      intro a ha
      rw [hkeys]
      simp only [List.mem_append, List.mem_singleton]
      rintro (hmem | rfl)
      · exact hm a (by simp [ha]) hmem
      · exact hbl ha
    rw [ih (mapInsert m b d) hd2 h2, hkeys]
    simp

end MapLemmas

/-! Section: Per-entry tick lemmas -/

theorem VirtualButtonState.tick_isSome (v : VirtualButtonState) (now : Instant)
    (h : ∀ t, v.instant_started = some t → t ≤ now) :
    (v.tick now).isSome := by
  cases v with
  | Pressed timing =>
    cases ht : timing.instant_started with
    | none => simp [VirtualButtonState.tick, ht]
    | some t =>
      have hle := h t (by simp [VirtualButtonState.instant_started, ht])
      simp [VirtualButtonState.tick, ht, hle]
  | Released timing =>
    cases ht : timing.instant_started with
    | none => simp [VirtualButtonState.tick, ht]
    | some t =>
      have hle := h t (by simp [VirtualButtonState.instant_started, ht])
      simp [VirtualButtonState.tick, ht, hle]

theorem VirtualButtonState.tick_spec (v : VirtualButtonState) (now : Instant)
    (v2 : VirtualButtonState) (h : v.tick now = some v2) :
    v2.previous_duration = v.previous_duration ∧
    v2.pressed = v.pressed ∧
    (v.instant_started = none → v2.instant_started = some now ∧ v2.current_duration = 0) ∧
    (∀ t, v.instant_started = some t →
      v2.instant_started = some t ∧ v2.current_duration = now - t ∧ t ≤ now) := by
  cases v with
  | Pressed timing =>
    cases ht : timing.instant_started with
    | none =>
      simp only [VirtualButtonState.tick, ht, Option.some.injEq] at h
      subst h
      simp [VirtualButtonState.previous_duration, VirtualButtonState.pressed,
        VirtualButtonState.instant_started, VirtualButtonState.current_duration, ht]
    | some t0 =>
      simp only [VirtualButtonState.tick, ht] at h
      by_cases hle : t0 ≤ now
      · simp only [hle, if_true, Option.some.injEq] at h
        subst h
        simp [VirtualButtonState.previous_duration, VirtualButtonState.pressed,
          VirtualButtonState.instant_started, VirtualButtonState.current_duration, ht, hle]
      · simp [hle] at h
  | Released timing =>
    cases ht : timing.instant_started with
    | none =>
      simp only [VirtualButtonState.tick, ht, Option.some.injEq] at h
      subst h
      simp [VirtualButtonState.previous_duration, VirtualButtonState.pressed,
        VirtualButtonState.instant_started, VirtualButtonState.current_duration, ht]
    | some t0 =>
      simp only [VirtualButtonState.tick, ht] at h
      by_cases hle : t0 ≤ now
      · simp only [hle, if_true, Option.some.injEq] at h
        subst h
        simp [VirtualButtonState.previous_duration, VirtualButtonState.pressed,
          VirtualButtonState.instant_started, VirtualButtonState.current_duration, ht, hle]
      · simp [hle] at h

namespace ActionState

variable {A : Type} [DecidableEq A]

omit [DecidableEq A] in
theorem tickEntries_keys :
    ∀ (m : List (A × VirtualButtonState)) (now : Instant)
      (m2 : List (A × VirtualButtonState)), tickEntries m now = some m2 →
    m2.map Prod.fst = m.map Prod.fst := by
  intro m
  induction m with
  | nil =>
    intro now m2 h
    simp only [tickEntries, Option.some.injEq] at h
    subst h
    rfl
  | cons p rest ih =>
    intro now m2 h
    obtain ⟨k, v⟩ := p
    simp only [tickEntries] at h
    cases hv : v.tick now with
    | none => simp [hv] at h
    | some v2 =>
      cases hr : tickEntries rest now with
      | none => simp [hv, hr] at h
      | some rest2 =>
        simp only [hv, hr, Option.some.injEq] at h
        subst h
        simp [ih now rest2 hr]

theorem tickEntries_get :
    ∀ (m : List (A × VirtualButtonState)) (now : Instant)
      (m2 : List (A × VirtualButtonState)), tickEntries m now = some m2 →
    ∀ (a : A) (v : VirtualButtonState), mapGet m a = some v →
    ∃ v2, mapGet m2 a = some v2 ∧ v.tick now = some v2 := by
  intro m
  induction m with
  | nil =>
    intro now m2 h a v hget
    simp [mapGet] at hget
  | cons p rest ih =>
    intro now m2 h a v hget
    obtain ⟨k, w⟩ := p
    simp only [tickEntries] at h
    cases hw : w.tick now with
    | none => simp [hw] at h
    | some w2 =>
      cases hr : tickEntries rest now with
      | none => simp [hw, hr] at h
      | some rest2 =>
        simp only [hw, hr, Option.some.injEq] at h
        subst h
        by_cases hk : k = a
        · simp only [mapGet, hk, if_true] at hget ⊢
          obtain rfl : w = v := by
            simpa using hget
          exact ⟨w2, by simp, hw⟩
        · simp only [mapGet, hk, if_false] at hget ⊢
          exact ih now rest2 hr a v hget

omit [DecidableEq A] in
theorem tickEntries_isSome :
    ∀ (m : List (A × VirtualButtonState)) (now : Instant),
    (∀ p ∈ m, ∀ t, p.2.instant_started = some t → t ≤ now) →
    (tickEntries m now).isSome := by
  intro m
  induction m with
  | nil => intro now _; simp [tickEntries]
  | cons p rest ih =>
    intro now h
    obtain ⟨k, v⟩ := p
    have h1 : (v.tick now).isSome :=
      VirtualButtonState.tick_isSome v now (fun t ht => h (k, v) (by simp) t ht)
    have h2 := ih now (fun q hq t ht => h q (by simp [hq]) t ht)
    obtain ⟨v2, hv⟩ := Option.isSome_iff_exists.mp h1
    obtain ⟨rest2, hr⟩ := Option.isSome_iff_exists.mp h2
    simp [tickEntries, hv, hr]

/-! Section: Press / release lemmas -/

theorem state_press_self (s : ActionState A) (a : A)
    (h : (s.state a).released = true) :
    (s.press a).state a =
      VirtualButtonState.Pressed
        { instant_started := none, current_duration := 0,
          previous_duration := (s.state a).current_duration } := by
  cases hs : s.state a with
  | Pressed timing =>
    rw [hs] at h
    simp [VirtualButtonState.released] at h
  | Released timing =>
    simp only [press, hs]
    simp [state, VirtualButtonState.current_duration]

theorem press_of_pressed (s : ActionState A) (a : A)
    (h : (s.state a).pressed = true) : s.press a = s := by
  cases hs : s.state a with
  | Released timing =>
    rw [hs] at h
    simp [VirtualButtonState.pressed] at h
  | Pressed timing =>
    simp [press, hs]

theorem state_release_self (s : ActionState A) (a : A)
    (h : (s.state a).pressed = true) :
    (s.release a).state a =
      VirtualButtonState.Released
        { instant_started := none, current_duration := 0,
          previous_duration := (s.state a).current_duration } := by
  cases hs : s.state a with
  | Released timing =>
    rw [hs] at h
    simp [VirtualButtonState.pressed] at h
  | Pressed timing =>
    simp only [release, hs]
    simp [state, VirtualButtonState.current_duration]

theorem release_of_released (s : ActionState A) (a : A)
    (h : (s.state a).released = true) : s.release a = s := by
  cases hs : s.state a with
  | Pressed timing =>
    rw [hs] at h
    simp [VirtualButtonState.released] at h
  | Released timing =>
    simp [release, hs]

theorem state_press_ne (s : ActionState A) {a b : A} (h : b ≠ a) :
    (s.press b).state a = s.state a := by
  cases hs : s.state b with
  | Pressed timing => simp [press, hs]
  | Released timing =>
    simp only [press, hs]
    simp [state, mapGet_mapInsert_ne _ _ h]

theorem state_release_ne (s : ActionState A) {a b : A} (h : b ≠ a) :
    (s.release b).state a = s.state a := by
  cases hs : s.state b with
  | Released timing => simp [release, hs]
  | Pressed timing =>
    simp only [release, hs]
    simp [state, mapGet_mapInsert_ne _ _ h]

theorem keys_press (s : ActionState A) (a : A) (h : a ∈ s.map.map Prod.fst) :
    (s.press a).map.map Prod.fst = s.map.map Prod.fst := by
  cases hs : s.state a with
  | Pressed timing => simp [press, hs]
  | Released timing => simp [press, hs, keys_mapInsert_mem _ _ h]

theorem keys_release (s : ActionState A) (a : A) (h : a ∈ s.map.map Prod.fst) :
    (s.release a).map.map Prod.fst = s.map.map Prod.fst := by
  cases hs : s.state a with
  | Released timing => simp [release, hs]
  | Pressed timing => simp [release, hs, keys_mapInsert_mem _ _ h]

/-! Section: Update-loop lemmas -/

theorem updateAction_state_ne (S : List A) (s : ActionState A) {a b : A}
    (h : b ≠ a) : (updateAction S s b).state a = s.state a := by
  cases hs : s.state b with
  | Pressed timing =>
    simp only [updateAction, hs]
    by_cases hb : b ∈ S
    · simp [hb]
    · simp [hb, state_release_ne s h]
  | Released timing =>
    simp only [updateAction, hs]
    by_cases hb : b ∈ S
    · simp [hb, state_press_ne s h]
    · simp [hb]

theorem updateAction_pressed_self (S : List A) (s : ActionState A) (a : A) :
    (updateAction S s a).pressed a = true ↔ a ∈ S := by
  cases hs : s.state a with
  | Pressed timing =>
    simp only [updateAction, hs]
    by_cases ha : a ∈ S
    · simp [ha, pressed, hs, VirtualButtonState.pressed]
    · have hr := state_release_self s a (by rw [hs]; rfl)
      simp [ha, pressed, hr, VirtualButtonState.pressed]
  | Released timing =>
    simp only [updateAction, hs]
    by_cases ha : a ∈ S
    · have hp := state_press_self s a (by rw [hs]; rfl)
      simp [ha, pressed, hp, VirtualButtonState.pressed]
    · simp [ha, pressed, hs, VirtualButtonState.pressed]

theorem updateAction_of_agree (S : List A) (s : ActionState A) (a : A)
    (h : s.pressed a = true ↔ a ∈ S) : updateAction S s a = s := by
  cases hs : s.state a with
  | Pressed timing =>
    have ha : a ∈ S := h.mp (by simp [pressed, hs, VirtualButtonState.pressed])
    simp [updateAction, hs, ha]
  | Released timing =>
    have ha : a ∉ S := by
      intro hmem
      have hp := h.mpr hmem
      rw [pressed, hs] at hp
      simp [VirtualButtonState.pressed] at hp
    simp [updateAction, hs, ha]

theorem foldl_updateAction_state_of_agree (S : List A) (a : A) :
    ∀ (l : List A) (s : ActionState A), (s.pressed a = true ↔ a ∈ S) →
    (l.foldl (updateAction S) s).state a = s.state a := by
  intro l
  induction l with
  | nil => intro s _; rfl
  | cons b l ih =>
    intro s hagree
    simp only [List.foldl_cons]
    by_cases hb : b = a
    · subst hb
      rw [updateAction_of_agree S s b hagree]
      exact ih s hagree
    · have hstate := updateAction_state_ne S s hb
      have hagree2 : (updateAction S s b).pressed a = true ↔ a ∈ S := by
        simpa only [pressed, hstate] using hagree
      rw [ih (updateAction S s b) hagree2, hstate]

theorem foldl_updateAction_pressed (S : List A) (a : A) :
    ∀ (l : List A) (s : ActionState A), a ∈ l →
    ((l.foldl (updateAction S) s).pressed a = true ↔ a ∈ S) := by
  intro l
  induction l with
  | nil => intro s h; simp at h
  | cons b l ih =>
    intro s hmem
    simp only [List.foldl_cons]
    by_cases hl : a ∈ l
    · exact ih (updateAction S s b) hl
    · have hab : b = a := by
        rcases List.mem_cons.mp hmem with h1 | h1
        · exact h1.symm
        · exact absurd h1 hl
      subst hab
      have hagree := updateAction_pressed_self S s b
      have hstate := foldl_updateAction_state_of_agree S b l (updateAction S s b) hagree
      simp only [pressed, hstate]
      simpa only [pressed] using hagree

theorem foldl_updateAction_of_all_agree (S : List A) :
    ∀ (l : List A) (s : ActionState A), (∀ a, s.pressed a = true ↔ a ∈ S) →
    l.foldl (updateAction S) s = s := by
  intro l
  induction l with
  | nil => intro s _; rfl
  | cons b l ih =>
    intro s h
    simp only [List.foldl_cons, updateAction_of_agree S s b (h b)]
    exact ih s h

/-! Section: Construction lemmas -/

theorem state_init (enum : List A) (a : A) :
    (init enum).state a = VirtualButtonState.default := by
  by_cases ha : a ∈ enum <;>
    simp [init, state, default_map, mapGet_foldl_mapInsert, mapGet, ha]

theorem mapGet_init (enum : List A) (a : A) (h : a ∈ enum) :
    mapGet (init enum).map a = some VirtualButtonState.default := by
  simp [init, default_map, mapGet_foldl_mapInsert, h]

theorem keys_init (enum : List A) (hnd : enum.Nodup) :
    (init enum).map.map Prod.fst = enum := by
  have h := keys_foldl_mapInsert VirtualButtonState.default enum [] hnd (by simp)
  simpa [init, default_map] using h

omit [DecidableEq A] in
theorem tick_eq_some (s s2 : ActionState A) (now : Instant)
    (h : s.tick now = some s2) : tickEntries s.map now = some s2.map := by
  rw [tick] at h
  cases hte : tickEntries s.map now with
  | none =>
    rw [hte] at h
    simp at h
  | some m2 =>
    rw [hte] at h
    simp only [Option.map_some', Option.some.injEq] at h
    rw [← h]

/-! Section: Key-set preservation lemmas -/

theorem keys_updateAction (S : List A) (s : ActionState A) (b : A)
    (h : b ∈ s.map.map Prod.fst) :
    (updateAction S s b).map.map Prod.fst = s.map.map Prod.fst := by
  cases hs : s.state b with
  | Pressed timing =>
    simp only [updateAction, hs]
    by_cases hb : b ∈ S
    · simp [hb]
    · simp [hb, keys_release s b h]
  | Released timing =>
    simp only [updateAction, hs]
    by_cases hb : b ∈ S
    · simp [hb, keys_press s b h]
    · simp [hb]

theorem keys_foldl_release (enum : List A) (hex : ∀ a : A, a ∈ enum) :
    ∀ (l : List A) (s : ActionState A), s.map.map Prod.fst = enum →
    (l.foldl (fun acc action => acc.release action) s).map.map Prod.fst = enum := by
  intro l
  induction l with
  | nil => intro s h; exact h
  | cons b l ih =>
    intro s h
    simp only [List.foldl_cons]
    refine ih (s.release b) ?_
    rw [keys_release s b (by rw [h]; exact hex b)]
    exact h

theorem keys_foldl_updateAction (enum : List A) (hex : ∀ a : A, a ∈ enum)
    (S : List A) :
    ∀ (l : List A) (s : ActionState A), s.map.map Prod.fst = enum →
    (l.foldl (updateAction S) s).map.map Prod.fst = enum := by
  intro l
  induction l with
  | nil => intro s h; exact h
  | cons b l ih =>
    intro s h
    simp only [List.foldl_cons]
    refine ih (updateAction S s b) ?_
    rw [keys_updateAction S s b (by rw [h]; exact hex b)]
    exact h

end ActionState

/-! Section: Claims about `ButtonThresholds` -/

/-- Claim C1, counterexample. The claim states that for `v ≤ pressed` the call
`set_released(v)` makes `released` become `v` with `pressed` unchanged, and
that on rejection it sets `pressed` (not `released`) to the clamp value. The
code does neither: at `t = (pressed 1/2, released 1/2)`, `set_released(3/10)`
succeeds but mutates `pressed` to `3/10` and leaves `released` at `1/2`; and
at `t = (pressed 4/5, released 1/5)`, `set_released(9/10)` is rejected and
mutates `released` (to `4/5`), not `pressed`. -/
theorem c1_counterexample :
    (ButtonThresholds.set_released { pressed := 1/2, released := 1/2 } (3/10) ≠
      some ({ pressed := 1/2, released := 3/10 }, ThresholdResult.ok)) ∧
    (ButtonThresholds.set_released { pressed := 1/2, released := 1/2 } (3/10) =
      some ({ pressed := 3/10, released := 1/2 }, ThresholdResult.ok)) ∧
    (ButtonThresholds.set_released { pressed := 4/5, released := 1/5 } (9/10) =
      some ({ pressed := 4/5, released := 4/5 },
        ThresholdResult.thresholdError (4/5))) := by
  refine ⟨?_, ?_, ?_⟩ <;>
    norm_num [ButtonThresholds.set_released, ButtonThresholds.mk.injEq]

/-- Claim C1, amended: for every `ButtonThresholds` `t` and `v ∈ [0,1]`, if
`v ≤ t.pressed` then `set_released(v)` sets `pressed` (not `released`) to `v`,
leaves `released` unchanged, and returns success; otherwise it sets `released`
to the current `pressed` value, leaves `pressed` unchanged, and returns an
error carrying that `pressed` value. -/
theorem c1_amended_set_released (t : ButtonThresholds) (v : Rat)
    (h0 : 0 ≤ v) (h1 : v ≤ 1) :
    (v ≤ t.pressed →
      t.set_released v = some ({ t with pressed := v }, ThresholdResult.ok)) ∧
    (t.pressed < v →
      t.set_released v =
        some ({ t with released := t.pressed },
          ThresholdResult.thresholdError t.pressed)) := by
  constructor
  · intro hle
    simp [ButtonThresholds.set_released, h0, h1, hle]
  · intro hlt
    simp [ButtonThresholds.set_released, h0, h1, not_le.mpr hlt]

/-- Witness for the amended claim C1 at concrete inputs covering both
branches. -/
theorem c1_amended_set_released_witness :
    (ButtonThresholds.set_released { pressed := 1/2, released := 1/2 } (3/10) =
      some ({ pressed := 3/10, released := 1/2 }, ThresholdResult.ok)) ∧
    (ButtonThresholds.set_released { pressed := 4/5, released := 1/5 } (9/10) =
      some ({ pressed := 4/5, released := 4/5 },
        ThresholdResult.thresholdError (4/5))) := by
  constructor
  · have h := (c1_amended_set_released { pressed := 1/2, released := 1/2 } (3/10)
      (by norm_num) (by norm_num)).1 (by norm_num)
    simpa using h
  · have h := (c1_amended_set_released { pressed := 4/5, released := 1/5 } (9/10)
      (by norm_num) (by norm_num)).2 (by norm_num)
    simpa using h

/-- Claim C2 (a code bug): the claim says every successful threshold mutation
preserves `pressed >= released`, matching the struct's own documentation, but
the code's `set_released` success branch assigns `self.pressed = value`. At
the failing input `t = (pressed 1/2, released 1/2)` (which satisfies the
invariant), `set_released(3/10)` returns `Ok` yet leaves the state
`(pressed 3/10, released 1/2)`, violating `pressed >= released`. -/
theorem c2_invariant_violation :
    (({ pressed := 1/2, released := 1/2 } : ButtonThresholds).released ≤
      ({ pressed := 1/2, released := 1/2 } : ButtonThresholds).pressed) ∧
    (ButtonThresholds.set_released { pressed := 1/2, released := 1/2 } (3/10) =
      some ({ pressed := 3/10, released := 1/2 }, ThresholdResult.ok)) ∧
    ¬ (({ pressed := 3/10, released := 1/2 } : ButtonThresholds).released ≤
        ({ pressed := 3/10, released := 1/2 } : ButtonThresholds).pressed) := by
  refine ⟨?_, ?_, ?_⟩ <;>
    norm_num [ButtonThresholds.set_released, ButtonThresholds.mk.injEq]

/-- Claim C6: for `v ∈ [0,1]`, `set_pressed(v)` with `v >= released` sets
`pressed := v`, succeeds, and leaves `released` unchanged; with
`v < released` it clamps `pressed` to the current `released` value and
returns an error carrying that substituted value. -/
theorem c6_set_pressed_spec (t : ButtonThresholds) (v : Rat)
    (h0 : 0 ≤ v) (h1 : v ≤ 1) :
    (t.released ≤ v →
      t.set_pressed v = some ({ t with pressed := v }, ThresholdResult.ok)) ∧
    (v < t.released →
      t.set_pressed v =
        some ({ t with pressed := t.released },
          ThresholdResult.thresholdError t.released)) := by
  constructor
  · intro hle
    simp [ButtonThresholds.set_pressed, h0, h1, hle]
  · intro hlt
    simp [ButtonThresholds.set_pressed, h0, h1, not_le.mpr hlt]

/-- Claim C3: for every `ActionState` and every stored per-action state, when
`tick(now)` runs to completion, a stored state with `instant_started` absent
gets `instant_started := now` and `current_duration := 0`, while a stored
state with `instant_started = some t` gets `current_duration := now - t` and
keeps `instant_started`; both variants identically (the variant is preserved),
and `previous_duration` is never changed by `tick`. -/
theorem c3_tick_per_state {A : Type} [DecidableEq A]
    (s : ActionState A) (now : Instant) (s2 : ActionState A)
    (h : s.tick now = some s2) (a : A) (v : VirtualButtonState)
    (hget : mapGet s.map a = some v) :
    ∃ v2, mapGet s2.map a = some v2 ∧
      v2.previous_duration = v.previous_duration ∧
      v2.pressed = v.pressed ∧
      (v.instant_started = none →
        v2.instant_started = some now ∧ v2.current_duration = 0) ∧
      (∀ t, v.instant_started = some t →
        v2.instant_started = some t ∧ v2.current_duration = now - t) := by
  have hte := ActionState.tick_eq_some s s2 now h
  obtain ⟨v2, hg2, htick⟩ := ActionState.tickEntries_get s.map now s2.map hte a v hget
  have hs := VirtualButtonState.tick_spec v now v2 htick
  exact ⟨v2, hg2, hs.1, hs.2.1, hs.2.2.1,
    fun t ht => ⟨(hs.2.2.2 t ht).1, (hs.2.2.2 t ht).2.1⟩⟩

/-- Witness for claim C3: a concrete one-entry state ticked from instant `3`
to instant `7`, yielding a current duration of `4` with the start instant and
previous duration untouched. -/
theorem c3_tick_per_state_witness :
    ∃ v2,
      mapGet (ActionState.mk (A := Bool)
        [(true, VirtualButtonState.Pressed
            { instant_started := some 3, current_duration := 4,
              previous_duration := 5 })]).map true = some v2 ∧
      v2.previous_duration =
        (VirtualButtonState.Pressed
          { instant_started := some 3, current_duration := 0,
            previous_duration := 5 }).previous_duration ∧
      v2.pressed =
        (VirtualButtonState.Pressed
          { instant_started := some 3, current_duration := 0,
            previous_duration := 5 }).pressed ∧
      ((VirtualButtonState.Pressed
          { instant_started := some 3, current_duration := 0,
            previous_duration := 5 }).instant_started = none →
        v2.instant_started = some 7 ∧ v2.current_duration = 0) ∧
      (∀ t,
        (VirtualButtonState.Pressed
          { instant_started := some 3, current_duration := 0,
            previous_duration := 5 }).instant_started = some t →
        v2.instant_started = some t ∧ v2.current_duration = 7 - t) :=
  c3_tick_per_state
    (ActionState.mk (A := Bool)
      [(true, VirtualButtonState.Pressed
          { instant_started := some 3, current_duration := 0,
            previous_duration := 5 })])
    7
    (ActionState.mk
      [(true, VirtualButtonState.Pressed
          { instant_started := some 3, current_duration := 4,
            previous_duration := 5 })])
    (by decide) true
    (VirtualButtonState.Pressed
      { instant_started := some 3, current_duration := 0, previous_duration := 5 })
    (by decide)

/-- Claim C4: `press` on a released action transitions it to `Pressed` with
`instant_started` absent, `current_duration` zero, and `previous_duration`
equal to the `current_duration` held immediately before the call; `press` on
an already-pressed action changes nothing; `release` is symmetric. -/
theorem c4_press_release_transitions {A : Type} [DecidableEq A]
    (s : ActionState A) (a : A) :
    ((s.state a).released = true →
      (s.press a).state a =
        VirtualButtonState.Pressed
          { instant_started := none, current_duration := 0,
            previous_duration := (s.state a).current_duration }) ∧
    ((s.state a).pressed = true → s.press a = s) ∧
    ((s.state a).pressed = true →
      (s.release a).state a =
        VirtualButtonState.Released
          { instant_started := none, current_duration := 0,
            previous_duration := (s.state a).current_duration }) ∧
    ((s.state a).released = true → s.release a = s) :=
  ⟨ActionState.state_press_self s a, ActionState.press_of_pressed s a,
   ActionState.state_release_self s a, ActionState.release_of_released s a⟩

/-- Witness for claim C4: pressing the released action `true` of a freshly
constructed two-action state. -/
theorem c4_press_release_transitions_witness :
    ((ActionState.init (A := Bool) [true, false]).state true).released = true ∧
    ((ActionState.init (A := Bool) [true, false]).press true).state true =
      VirtualButtonState.Pressed
        { instant_started := none, current_duration := 0,
          previous_duration :=
            ((ActionState.init (A := Bool) [true, false]).state true).current_duration } :=
  ⟨by decide,
   (c4_press_release_transitions (ActionState.init (A := Bool) [true, false]) true).1
     (by decide)⟩

/-- Claim C7: under the precondition that the tick timestamp is at least every
`instant_started` recorded in the state, the trapping branch of the unsigned
instant subtraction is unreachable: `tick` returns a value. -/
theorem c7_tick_total {A : Type} [DecidableEq A] (s : ActionState A)
    (now : Instant)
    (h : ∀ p ∈ s.map, ∀ t, p.2.instant_started = some t → t ≤ now) :
    (s.tick now).isSome := by
  have hsome := ActionState.tickEntries_isSome s.map now h
  rw [ActionState.tick]
  cases hte : ActionState.tickEntries s.map now with
  | none =>
    rw [hte] at hsome
    simp at hsome
  | some m2 => simp

/-- Witness for claim C7: a concrete state whose only recorded instant is `3`,
ticked at timestamp `7`. -/
theorem c7_tick_total_witness :
    ((ActionState.mk (A := Bool)
      [(true, VirtualButtonState.Pressed
          { instant_started := some 3, current_duration := 0,
            previous_duration := 5 })]).tick 7).isSome :=
  c7_tick_total _ 7 (by
    intro p hp t ht
    rw [List.mem_singleton] at hp
    subst hp
    simp only [VirtualButtonState.instant_started] at ht
    injection ht with ht2
    subst ht2
    decide)

/-- Claim C10: two opposite transitions with no tick in between (`press` then
`release` on a released action, or `release` then `press` on a pressed action)
leave `previous_duration` equal to zero: the first transition resets
`current_duration` to zero and the second copies that zero into
`previous_duration`. -/
theorem c10_double_transition_zeroes_previous {A : Type} [DecidableEq A]
    (s : ActionState A) (a : A) :
    ((s.state a).released = true →
      ((s.press a).release a).previous_duration a = 0) ∧
    ((s.state a).pressed = true →
      ((s.release a).press a).previous_duration a = 0) := by
  constructor
  · intro h
    have h1 := ActionState.state_press_self s a h
    have h2 : ((s.press a).state a).pressed = true := by
      rw [h1]
      rfl
    have h3 := ActionState.state_release_self (s.press a) a h2
    simp only [ActionState.previous_duration]
    rw [h3, h1]
    rfl
  · intro h
    have h1 := ActionState.state_release_self s a h
    have h2 : ((s.release a).state a).released = true := by
      rw [h1]
      rfl
    have h3 := ActionState.state_press_self (s.release a) a h2
    simp only [ActionState.previous_duration]
    rw [h3, h1]
    rfl

/-- Witness for claim C10: pressing then immediately releasing the released
action `true` of a freshly constructed state leaves a zero previous
duration. -/
theorem c10_double_transition_zeroes_previous_witness :
    ((ActionState.init (A := Bool) [true, false]).state true).released = true ∧
    (((ActionState.init (A := Bool) [true, false]).press true).release true).previous_duration
      true = 0 :=
  ⟨by decide,
   (c10_double_transition_zeroes_previous
     (ActionState.init (A := Bool) [true, false]) true).1 (by decide)⟩

/-- Witness for claim C6 at the spec's example inputs: `set_pressed(0.3)` with
`released == 0.5` clamps to `pressed = 0.5` and reports `0.5`;
`set_pressed(0.7)` succeeds outright, leaving `released` untouched. -/
theorem c6_set_pressed_spec_witness :
    (ButtonThresholds.set_pressed { pressed := 1/2, released := 1/2 } (3/10) =
      some ({ pressed := 1/2, released := 1/2 },
        ThresholdResult.thresholdError (1/2))) ∧
    (ButtonThresholds.set_pressed { pressed := 1/2, released := 1/2 } (7/10) =
      some ({ pressed := 7/10, released := 1/2 }, ThresholdResult.ok)) := by
  constructor
  · have h := (c6_set_pressed_spec { pressed := 1/2, released := 1/2 } (3/10)
      (by norm_num) (by norm_num)).2 (by norm_num)
    simpa using h
  · have h := (c6_set_pressed_spec { pressed := 1/2, released := 1/2 } (7/10)
      (by norm_num) (by norm_num)).1 (by norm_num)
    simpa using h

/-- Claim C5: after `update(S)`, every action is pressed iff it is a member of
`S`; an action whose variant already agrees with its membership keeps its
stored state untouched; and if `S` contains exactly the currently-pressed
actions, `update(S)` leaves the entire `ActionState` unchanged. -/
theorem c5_update_sync {A : Type} [DecidableEq A] (enum : List A)
    (s : ActionState A) (S : List A) (hex : ∀ a : A, a ∈ enum) :
    (∀ a, ((ActionState.update enum s S).pressed a = true ↔ a ∈ S)) ∧
    (∀ a, (s.pressed a = true ↔ a ∈ S) →
      (ActionState.update enum s S).state a = s.state a) ∧
    ((∀ a, s.pressed a = true ↔ a ∈ S) → ActionState.update enum s S = s) := by
  refine ⟨?_, ?_, ?_⟩
  · intro a
    simp only [ActionState.update]
    exact ActionState.foldl_updateAction_pressed S a enum s (hex a)
  · intro a hagree
    simp only [ActionState.update]
    exact ActionState.foldl_updateAction_state_of_agree S a enum s hagree
  · intro hall
    simp only [ActionState.update]
    exact ActionState.foldl_updateAction_of_all_agree S enum s hall

/-- Witness for claim C5: updating a fresh two-action state with the set
containing only `true` presses exactly `true`, and updating with the set of
currently-pressed actions (the empty set) is a no-op. -/
theorem c5_update_sync_witness :
    ((ActionState.update [true, false] (ActionState.init (A := Bool) [true, false])
        [true]).pressed true = true ↔ true ∈ [true]) ∧
    (ActionState.update [true, false] (ActionState.init (A := Bool) [true, false]) [] =
      ActionState.init (A := Bool) [true, false]) :=
  ⟨(c5_update_sync [true, false] (ActionState.init [true, false]) [true]
      (by decide)).1 true,
   (c5_update_sync [true, false] (ActionState.init [true, false]) []
      (by decide)).2.2 (by decide)⟩

/-- Claim C8: the default-constructed `ActionState` maps exactly one entry per
action variant (its key list is the exhaustive enumeration, with count one per
action), and `press`, `release`, `release_all`, `update`, `tick` and
`set_state` all preserve the key list: entries are only overwritten, never
removed or added. -/
theorem c8_exhaustive_map_invariant {A : Type} [DecidableEq A] (enum : List A)
    (hnd : enum.Nodup) (hex : ∀ a : A, a ∈ enum) :
    ((ActionState.init enum).map.map Prod.fst = enum ∧
      ∀ a : A, ((ActionState.init enum).map.map Prod.fst).count a = 1) ∧
    (∀ s : ActionState A, s.map.map Prod.fst = enum →
      (∀ a, (s.press a).map.map Prod.fst = enum) ∧
      (∀ a, (s.release a).map.map Prod.fst = enum) ∧
      ((ActionState.release_all enum s).map.map Prod.fst = enum) ∧
      (∀ S, (ActionState.update enum s S).map.map Prod.fst = enum) ∧
      (∀ now s2, s.tick now = some s2 → s2.map.map Prod.fst = enum) ∧
      (∀ a v s2, s.set_state a v = some s2 → s2.map.map Prod.fst = enum)) := by
  have hinit := ActionState.keys_init enum hnd
  refine ⟨⟨hinit, ?_⟩, ?_⟩
  · intro a
    rw [hinit]
    exact List.count_eq_one_of_mem hnd (hex a)
  · intro s h
    refine ⟨?_, ?_, ?_, ?_, ?_, ?_⟩
    · intro a
      rw [ActionState.keys_press s a (by rw [h]; exact hex a)]
      exact h
    · intro a
      rw [ActionState.keys_release s a (by rw [h]; exact hex a)]
      exact h
    · simp only [ActionState.release_all]
      exact ActionState.keys_foldl_release enum hex enum s h
    · intro S
      simp only [ActionState.update]
      exact ActionState.keys_foldl_updateAction enum hex S enum s h
    · intro now s2 htick
      have hte := ActionState.tick_eq_some s s2 now htick
      rw [ActionState.tickEntries_keys s.map now s2.map hte]
      exact h
    · intro a v s2 hset
      cases hget : mapGet s.map a with
      | none =>
        simp [ActionState.set_state, hget] at hset
      | some w =>
        simp only [ActionState.set_state, hget, Option.some.injEq] at hset
        have hmem : a ∈ s.map.map Prod.fst := mem_keys_of_mapGet s.map hget
        rw [← hset]
        show (mapInsert s.map a v).map Prod.fst = enum
        rw [keys_mapInsert_mem s.map v hmem]
        exact h

/-- Witness for claim C8: the fresh two-action state over `Bool` has key list
`[true, false]`, and pressing `true` keeps that key list. -/
theorem c8_exhaustive_map_invariant_witness :
    ((ActionState.init (A := Bool) [true, false]).map.map Prod.fst =
      [true, false]) ∧
    (((ActionState.init (A := Bool) [true, false]).press true).map.map Prod.fst =
      [true, false]) :=
  ⟨(c8_exhaustive_map_invariant [true, false] (by decide) (by decide)).1.1,
   ((c8_exhaustive_map_invariant [true, false] (by decide) (by decide)).2
     (ActionState.init [true, false]) (by decide)).1 true⟩

/-- Claim C9: on a freshly constructed (default) `ActionState`, every action
is released with `just_released` true, both durations zero and no start
instant; and `just_released` stops being true after the first `tick`. -/
theorem c9_default_state {A : Type} [DecidableEq A] (enum : List A) (a : A)
    (ha : a ∈ enum) :
    (ActionState.init enum).released a = true ∧
    (ActionState.init enum).just_released a = true ∧
    (ActionState.init enum).current_duration a = 0 ∧
    (ActionState.init enum).previous_duration a = 0 ∧
    (ActionState.init enum).instant_started a = none ∧
    (∀ now s2, (ActionState.init enum).tick now = some s2 →
      s2.just_released a = false) := by
  have hst := ActionState.state_init enum a
  refine ⟨?_, ?_, ?_, ?_, ?_, ?_⟩
  · simp only [ActionState.released, hst]
    rfl
  · simp only [ActionState.just_released, hst]
    rfl
  · simp only [ActionState.current_duration, hst]
    rfl
  · simp only [ActionState.previous_duration, hst]
    rfl
  · simp only [ActionState.instant_started, hst]
    rfl
  · intro now s2 h
    have hte := ActionState.tick_eq_some _ _ _ h
    obtain ⟨v2, hg2, htick⟩ := ActionState.tickEntries_get _ now s2.map hte a _
      (ActionState.mapGet_init enum a ha)
    have hcomp : VirtualButtonState.default.tick now =
        some (VirtualButtonState.Released
          { instant_started := some now, current_duration := 0,
            previous_duration := 0 }) := rfl
    rw [hcomp] at htick
    have hv2 := (Option.some.inj htick).symm
    subst hv2
    simp [ActionState.just_released, ActionState.state, hg2,
      VirtualButtonState.just_released]

/-- Witness for claim C9: the fresh two-action state over `Bool`, ticked at
instant `5`. -/
theorem c9_default_state_witness :
    (ActionState.init (A := Bool) [true, false]).released true = true ∧
    (ActionState.init (A := Bool) [true, false]).just_released true = true ∧
    (ActionState.mk (A := Bool)
      [(true, VirtualButtonState.Released
          { instant_started := some 5, current_duration := 0,
            previous_duration := 0 }),
       (false, VirtualButtonState.Released
          { instant_started := some 5, current_duration := 0,
            previous_duration := 0 })]).just_released true = false := by
  have h := c9_default_state (A := Bool) [true, false] true (by decide)
  exact ⟨h.1, h.2.1, h.2.2.2.2.2 5 _ (by decide)⟩

end LeafwingInputManager
